import Mathlib

/-!
Shallow embedding of the ballistics core of wndrk/wows-ballistics-calc
(src/scraper.js and its configuration module), plus theorems checking the
natural-language specification against it.

Numeric values are modelled as exact rationals where the source performs
only field arithmetic and comparisons (range modifiers, range conversion),
and as real numbers where the source uses transcendental functions
(trigonometry, the atmosphere power law, the RK4 integrator).
-/

namespace Wows

/-! ### Configuration tables (config.js) -/

namespace MODIFIERS

def aftMultiplier : ℚ := 1.2

def spotterMultiplier : ℚ := 1.2

def aprm1Multiplier : ℚ := 1.16

def uniqueUpgrades (shipName : String) : Option ℚ :=
  if shipName = "Henri IV" then some 1.05 else none

end MODIFIERS

/-- The unique-upgrade factor actually multiplied in: the table entry when the
ship has one, and `1` otherwise. -/
def uniqFactor (shipName : String) : ℚ :=
  (MODIFIERS.uniqueUpgrades shipName).getD 1

/-! ### calculateModifiedRange (scraper.js lines 711-735) -/

/-- Embedding of `calculateModifiedRange`.  The first rule (USN BB equipment
bonus) is a plain `if`; the class rule (DD) and the spotter rule form a
separate `if / else if` chain; the unique-upgrade override multiplies the
result of whatever fired before. -/
def calculateModifiedRange (baseMaxRange : ℚ) (shipClass : String)
    (hasSpotter : Bool) (shipName : String) (nation : String) : ℚ :=
  let maxRange0 := baseMaxRange
  let maxRange1 :=
    if nation = "U.S.A." ∧ shipClass = "BB" then
      baseMaxRange * MODIFIERS.aprm1Multiplier
    else maxRange0
  let maxRange2 :=
    if shipClass = "DD" then
      baseMaxRange * MODIFIERS.aftMultiplier
    else if shipClass ∈ ["BB", "CA", "CB", "CL"] ∧ hasSpotter then
      maxRange1 * MODIFIERS.spotterMultiplier
    else maxRange1
  match MODIFIERS.uniqueUpgrades shipName with
  | some u => maxRange2 * u
  | none => maxRange2

/-- The value of `maxRange` just before the unique-upgrade block of
`calculateModifiedRange`: helper used to state that the override multiplies
on top of whichever branch fired. -/
def preOverrideRange (baseMaxRange : ℚ) (shipClass : String)
    (hasSpotter : Bool) (nation : String) : ℚ :=
  let maxRange1 :=
    if nation = "U.S.A." ∧ shipClass = "BB" then
      baseMaxRange * MODIFIERS.aprm1Multiplier
    else baseMaxRange
  if shipClass = "DD" then
    baseMaxRange * MODIFIERS.aftMultiplier
  else if shipClass ∈ ["BB", "CA", "CB", "CL"] ∧ hasSpotter then
    maxRange1 * MODIFIERS.spotterMultiplier
  else maxRange1

/-! ### calculateConvertedRange (scraper.js lines 411-413) -/

/-- JavaScript `Math.round`: rounds half toward positive infinity. -/
def jsRound (x : ℚ) : ℤ := ⌊x + 1/2⌋

/-- Embedding of `calculateConvertedRange`: `Math.round(rangeKm * 1000 / 30.3)`. -/
def calculateConvertedRange (rangeKm : ℚ) : ℤ :=
  jsRound (rangeKm * 1000 / 30.3)

/-! ### Physics constants (config.js PHYSICS object) -/

namespace PHYSICS

def g : ℝ := 9.81

def t0 : ℝ := 288.15

def L : ℝ := 0.0065

def p0 : ℝ := 101325

def M : ℝ := 0.0289644

def R : ℝ := 8.31447

def timeMultiplier : ℝ := 2.75

noncomputable def gMRL : ℝ := g * M / (R * L)

end PHYSICS

/-! ### Data model of the trajectory integrator (scraper.js lines 553-700) -/

/-- Shell parameter record: muzzle velocity (m per s), caliber (mm),
mass (kg), drag coefficient (unitless). -/
structure ShellParams where
  muzzleVelocity : ℝ
  caliber : ℝ
  mass : ℝ
  dragCoefficient : ℝ

/-- Kinematic state during integration. -/
structure SimState where
  x : ℝ
  y : ℝ
  vx : ℝ
  vy : ℝ

/-- Derivative record returned by `derivatives`. -/
structure SimDeriv where
  dx : ℝ
  dy : ℝ
  dvx : ℝ
  dvy : ℝ

/-- Embedding of `getAirDensity`: lapse-rate atmosphere model.
`Math.pow` on a real base and real exponent is modelled by `Real.rpow`. -/
noncomputable def getAirDensity (y : ℝ) : ℝ :=
  let T := PHYSICS.t0 - PHYSICS.L * y
  let p := PHYSICS.p0 * (T / PHYSICS.t0) ^ PHYSICS.gMRL
  (p * PHYSICS.M) / (PHYSICS.R * T)

/-- Embedding of `getCombinedDrag`. -/
noncomputable def getCombinedDrag (Cd caliber mass : ℝ) : ℝ :=
  0.5 * Cd * Real.pi * (caliber / 2) ^ 2 / mass

/-- Embedding of `derivatives`: right-hand side of the equations of motion. -/
noncomputable def derivatives (s : SimState) (k : ℝ) : SimDeriv :=
  let speed := Real.sqrt (s.vx * s.vx + s.vy * s.vy)
  let rho := getAirDensity s.y
  let kRho := k * rho
  { dx := s.vx
    dy := s.vy
    dvx := -kRho * s.vx * speed
    dvy := -PHYSICS.g - kRho * s.vy * speed }

/-- Embedding of `rk4Step`: one classical fourth-order Runge-Kutta step. -/
noncomputable def rk4Step (s : SimState) (dt k : ℝ) : SimState :=
  let k1 := derivatives s k
  let k2 := derivatives
    { x := s.x + 0.5 * dt * k1.dx
      y := s.y + 0.5 * dt * k1.dy
      vx := s.vx + 0.5 * dt * k1.dvx
      vy := s.vy + 0.5 * dt * k1.dvy } k
  let k3 := derivatives
    { x := s.x + 0.5 * dt * k2.dx
      y := s.y + 0.5 * dt * k2.dy
      vx := s.vx + 0.5 * dt * k2.dvx
      vy := s.vy + 0.5 * dt * k2.dvy } k
  let k4 := derivatives
    { x := s.x + dt * k3.dx
      y := s.y + dt * k3.dy
      vx := s.vx + dt * k3.dvx
      vy := s.vy + dt * k3.dvy } k
  { x := s.x + dt * (k1.dx + 2 * k2.dx + 2 * k3.dx + k4.dx) / 6
    y := s.y + dt * (k1.dy + 2 * k2.dy + 2 * k3.dy + k4.dy) / 6
    vx := s.vx + dt * (k1.dvx + 2 * k2.dvx + 2 * k3.dvx + k4.dvx) / 6
    vy := s.vy + dt * (k1.dvy + 2 * k2.dvy + 2 * k3.dvy + k4.dvy) / 6 }

/-- The integration loop of `simulateTrajectory`
(`while (state.y >= 0 && time < 120) { state = rk4Step(state, dt, k); time += dt }`),
modelled with a fuel parameter.  In exact real arithmetic the guard
`time < 120` fails after at most 6000 iterations, so any fuel of at least
6001 yields the exact while-loop behaviour (proved below). -/
noncomputable def simLoop (k : ℝ) : ℕ → SimState → ℝ → SimState × ℝ
  | 0, s, t => (s, t)
  | fuel + 1, s, t =>
    if s.y ≥ 0 ∧ t < 120 then simLoop k fuel (rk4Step s 0.02 k) (t + 0.02)
    else (s, t)

/-- Trajectory result record. -/
structure TrajResult where
  range : ℝ
  flightTime : ℝ
  adjustedFlightTime : ℝ
  impactAngle : ℝ
  impactVelocity : ℝ

/-- JavaScript `Math.atan2 y x`, i.e. the argument of the complex number
`x + y i`. -/
noncomputable def atan2 (y x : ℝ) : ℝ := Complex.arg ⟨x, y⟩

/-- Combined drag factor computed by `simulateTrajectory` from the shell
parameters (`getCombinedDrag(dragCoefficient, caliber / 1000, mass)`). -/
noncomputable def simK (p : ShellParams) : ℝ :=
  getCombinedDrag p.dragCoefficient (p.caliber / 1000) p.mass

/-- Initial kinematic state of `simulateTrajectory`. -/
noncomputable def initState (launchAngleDeg : ℝ) (p : ShellParams) : SimState :=
  let angleRad := launchAngleDeg * Real.pi / 180
  { x := 0
    y := 0
    vx := p.muzzleVelocity * Real.cos angleRad
    vy := p.muzzleVelocity * Real.sin angleRad }

/-- Embedding of `simulateTrajectory`. -/
noncomputable def simulateTrajectory (launchAngleDeg : ℝ) (p : ShellParams) :
    TrajResult :=
  let k := simK p
  let st := simLoop k 6001 (initState launchAngleDeg p) 0
  let s := st.1
  let time := st.2
  { range := s.x
    flightTime := time
    adjustedFlightTime := time / PHYSICS.timeMultiplier
    impactAngle := atan2 (-s.vy) s.vx * 180 / Real.pi
    impactVelocity := Real.sqrt (s.vx * s.vx + s.vy * s.vy) }

/-- The bisection loop of `findLaunchAngle`
(`while (high - low > 0.001) { ... }`), modelled with a fuel parameter.
The bracket width halves every iteration, so the guard fails after exactly
16 iterations and any fuel of at least 16 yields the exact while-loop
behaviour (proved below). -/
noncomputable def bisectLoop (p : ShellParams) (target : ℝ) :
    ℕ → ℝ → ℝ → ℝ × ℝ
  | 0, low, high => (low, high)
  | fuel + 1, low, high =>
    if high - low > 0.001 then
      let mid := (low + high) / 2
      if (simulateTrajectory mid p).range < target then
        bisectLoop p target fuel mid high
      else
        bisectLoop p target fuel low mid
    else (low, high)

/-- Embedding of `findLaunchAngle`. -/
noncomputable def findLaunchAngle (targetRangeMeters : ℝ) (p : ShellParams) :
    ℝ :=
  let lh := bisectLoop p targetRangeMeters 17 0 45
  (lh.1 + lh.2) / 2

/-- Result record of `getBallisticsAtRange`. -/
structure BallisticsResult where
  flightTime : ℝ
  impactAngle : ℝ
  impactVelocity : ℝ

/-- Embedding of `getBallisticsAtRange`. -/
noncomputable def getBallisticsAtRange (targetRangeKm : ℝ) (p : ShellParams) :
    BallisticsResult :=
  let targetRangeM := targetRangeKm * 1000
  let launchAngle := findLaunchAngle targetRangeM p
  let result := simulateTrajectory launchAngle p
  { flightTime := result.adjustedFlightTime
    impactAngle := result.impactAngle
    impactVelocity := result.impactVelocity }

/-! ### calculateFactor (scraper.js lines 394-404) -/

/-- JavaScript `Math.round` on a real argument. -/
noncomputable def jsRoundR (x : ℝ) : ℤ := ⌊x + 1/2⌋

open Classical in
/-- Embedding of `calculateFactor`. -/
noncomputable def calculateFactor (rangeKm flightTime impactAngleDeg : ℝ) :
    Option ℝ :=
  if rangeKm ≤ 0 ∨ flightTime ≤ 0 then none
  else
    let angleRad := impactAngleDeg * Real.pi / 180
    let cosAngle := Real.cos angleRad
    if cosAngle < 0.0872 then none
    else
      let rawFactor := rangeKm * 1000 / (flightTime * cosAngle) / 32
      some ((jsRoundR (rawFactor * 1000) : ℝ) / 1000)

/-! ### Spec-side formulation of the integrator step (for the refinement
claim about the RK4 scheme).  These definitions follow the wording of the
specification: the ODE right-hand side written with squared components, and
the standard RK4 combination `s + (dt/6) * (k1 + 2 k2 + 2 k3 + k4)` with the
intermediate evaluations at `s + (dt/2) * k1`, `s + (dt/2) * k2`,
`s + dt * k3`. -/

/-- Spec wording: the ODE system `dx/dt = vx`, `dy/dt = vy`,
`dvx/dt = -k rho(y) vx speed`, `dvy/dt = -g - k rho(y) vy speed` with
`speed = sqrt (vx^2 + vy^2)` and `rho` the atmosphere model. -/
noncomputable def specODE (k : ℝ) (s : SimState) : SimDeriv :=
  { dx := s.vx
    dy := s.vy
    dvx := -k * getAirDensity s.y * s.vx * Real.sqrt (s.vx ^ 2 + s.vy ^ 2)
    dvy := -PHYSICS.g - k * getAirDensity s.y * s.vy *
      Real.sqrt (s.vx ^ 2 + s.vy ^ 2) }

/-- Add `c` times a derivative to a state (Euler-style update used to build
the intermediate RK4 evaluation points). -/
def addScaled (s : SimState) (c : ℝ) (d : SimDeriv) : SimState :=
  { x := s.x + c * d.dx
    y := s.y + c * d.dy
    vx := s.vx + c * d.dvx
    vy := s.vy + c * d.dvy }

/-- Weighted 1,2,2,1 combination of the four RK4 derivative evaluations. -/
def rk4Combo (k1 k2 k3 k4 : SimDeriv) : SimDeriv :=
  { dx := k1.dx + 2 * k2.dx + 2 * k3.dx + k4.dx
    dy := k1.dy + 2 * k2.dy + 2 * k3.dy + k4.dy
    dvx := k1.dvx + 2 * k2.dvx + 2 * k3.dvx + k4.dvx
    dvy := k1.dvy + 2 * k2.dvy + 2 * k3.dvy + k4.dvy }

/-- Spec wording: the standard fourth-order Runge-Kutta step for the system
`specODE`. -/
noncomputable def specRK4Step (s : SimState) (dt k : ℝ) : SimState :=
  let k1 := specODE k s
  let k2 := specODE k (addScaled s (dt / 2) k1)
  let k3 := specODE k (addScaled s (dt / 2) k2)
  let k4 := specODE k (addScaled s dt k3)
  addScaled s (dt / 6) (rk4Combo k1 k2 k3 k4)

/-- The integration loop driven by the spec-side step. -/
noncomputable def specLoop (k : ℝ) : ℕ → SimState → ℝ → SimState × ℝ
  | 0, s, t => (s, t)
  | fuel + 1, s, t =>
    if s.y ≥ 0 ∧ t < 120 then specLoop k fuel (specRK4Step s 0.02 k) (t + 0.02)
    else (s, t)

/-! ### Basic lemmas about the integrator step -/

theorem simState_ext_of (a b : SimState) (hx : a.x = b.x) (hy : a.y = b.y)
    (hvx : a.vx = b.vx) (hvy : a.vy = b.vy) : a = b := by
  cases a; cases b; simp_all

theorem simDeriv_ext_of (a b : SimDeriv) (hx : a.dx = b.dx) (hy : a.dy = b.dy)
    (hvx : a.dvx = b.dvx) (hvy : a.dvy = b.dvy) : a = b := by
  cases a; cases b; simp_all

theorem derivatives_eq_specODE (s : SimState) (k : ℝ) :
    derivatives s k = specODE k s := by
  have hsq : s.vx * s.vx + s.vy * s.vy = s.vx ^ 2 + s.vy ^ 2 := by ring
  unfold derivatives specODE
  simp only [hsq]
  exact simDeriv_ext_of _ _ rfl rfl (by ring) (by ring)

theorem rk4Step_eq_specRK4Step (s : SimState) (dt k : ℝ) :
    rk4Step s dt k = specRK4Step s dt k := by
  unfold rk4Step specRK4Step addScaled rk4Combo
  simp only [derivatives_eq_specODE]
  have h2 : ∀ d : SimDeriv,
      ({ x := s.x + 0.5 * dt * d.dx, y := s.y + 0.5 * dt * d.dy,
         vx := s.vx + 0.5 * dt * d.dvx, vy := s.vy + 0.5 * dt * d.dvy }
        : SimState) =
      { x := s.x + dt / 2 * d.dx, y := s.y + dt / 2 * d.dy,
        vx := s.vx + dt / 2 * d.dvx, vy := s.vy + dt / 2 * d.dvy } := by
    intro d
    exact simState_ext_of _ _ (by ring) (by ring) (by ring) (by ring)
  rw [h2, h2]
  exact simState_ext_of _ _ (by ring) (by ring) (by ring) (by ring)

theorem simLoop_eq_specLoop (k : ℝ) (fuel : ℕ) (s : SimState) (t : ℝ) :
    simLoop k fuel s t = specLoop k fuel s t := by
  induction fuel generalizing s t with
  | zero => rfl
  | succ n ih =>
    unfold simLoop specLoop
    by_cases h : s.y ≥ 0 ∧ t < 120
    · simp only [if_pos h, rk4Step_eq_specRK4Step, ih]
    · simp only [if_neg h]

/-! ### Claim theorems -/

/-- C9: `getAirDensity` is a total function on the reals, equal for every
altitude `y` to `p M / (R T)` with `T = T0 - L y` and
`p = p0 (T / T0) ^ (g M / (R L))`, using the standard atmosphere constants. -/
theorem claim_C9 (y : ℝ) :
    getAirDensity y =
      101325 * ((288.15 - 0.0065 * y) / 288.15) ^
          (((9.81 * 0.0289644) / (8.31447 * 0.0065) : ℝ)) * 0.0289644 /
        (8.31447 * (288.15 - 0.0065 * y)) := by
  unfold getAirDensity PHYSICS.gMRL PHYSICS.t0 PHYSICS.L PHYSICS.p0
    PHYSICS.M PHYSICS.R PHYSICS.g
  ring

/-- C6: `simulateTrajectory` computes the combined drag factor
`k = 0.5 Cd pi ((caliber/1000)/2)^2 / mass`, starts from the origin with the
velocity decomposed along the launch angle, and advances the state by the
standard fourth-order Runge-Kutta scheme (weights 1,2,2,1 over 6) applied to
the drag-and-gravity ODE system. -/
theorem claim_C6 :
    (∀ p : ShellParams,
      simK p = 0.5 * p.dragCoefficient * Real.pi *
        (p.caliber / 1000 / 2) ^ 2 / p.mass) ∧
    (∀ (launchAngleDeg : ℝ) (p : ShellParams),
      initState launchAngleDeg p =
        { x := 0, y := 0,
          vx := p.muzzleVelocity * Real.cos (launchAngleDeg * Real.pi / 180),
          vy := p.muzzleVelocity * Real.sin (launchAngleDeg * Real.pi / 180) }) ∧
    (∀ (s : SimState) (dt k : ℝ), rk4Step s dt k = specRK4Step s dt k) ∧
    (∀ (k : ℝ) (fuel : ℕ) (s : SimState) (t : ℝ),
      simLoop k fuel s t = specLoop k fuel s t) ∧
    (∀ (launchAngleDeg : ℝ) (p : ShellParams),
      (simulateTrajectory launchAngleDeg p).range =
        (specLoop (simK p) 6001 (initState launchAngleDeg p) 0).1.x) :=
  ⟨fun p => rfl, fun a p => rfl, rk4Step_eq_specRK4Step, simLoop_eq_specLoop,
    fun a p => by
      unfold simulateTrajectory
      simp only [simLoop_eq_specLoop]⟩

/-! ### Lemmas about the range-modifier rule table -/

/-- The unique-upgrade override always multiplies the result of whichever
earlier branch fired. -/
theorem cMR_eq_pre_mul_uniq (baseMaxRange : ℚ) (shipClass : String)
    (hasSpotter : Bool) (shipName : String) (nation : String) :
    calculateModifiedRange baseMaxRange shipClass hasSpotter shipName nation =
      preOverrideRange baseMaxRange shipClass hasSpotter nation *
        uniqFactor shipName := by
  unfold calculateModifiedRange preOverrideRange uniqFactor
    MODIFIERS.uniqueUpgrades
  by_cases h : shipName = "Henri IV"
  · simp [h]
  · simp [h]

theorem one_le_uniqFactor (shipName : String) : 1 ≤ uniqFactor shipName := by
  unfold uniqFactor MODIFIERS.uniqueUpgrades
  by_cases h : shipName = "Henri IV"
  · simp [h]
    norm_num
  · simp [h]

theorem base_le_preOverrideRange (baseMaxRange : ℚ) (shipClass : String)
    (hasSpotter : Bool) (nation : String) (hb : 0 ≤ baseMaxRange) :
    baseMaxRange ≤ preOverrideRange baseMaxRange shipClass hasSpotter nation := by
  unfold preOverrideRange MODIFIERS.aprm1Multiplier MODIFIERS.aftMultiplier
    MODIFIERS.spotterMultiplier
  split_ifs <;> nlinarith

/-- C1 counterexample: a U.S.A. battleship with a spotter plane receives both
the 1.16 equipment multiplier and the 1.2 spotter multiplier, because in the
code the spotter rule is an else-branch of the DD rule, not of the equipment
rule.  So the claim that only the equipment multiplier applies is false. -/
theorem claim_C1_counterexample :
    calculateModifiedRange 100 "BB" true "Iowa" "U.S.A." = 139.2 ∧
    (139.2 : ℚ) ≠ 100 * 1.16 := by
  constructor
  · simp [calculateModifiedRange, MODIFIERS.uniqueUpgrades,
      MODIFIERS.aprm1Multiplier, MODIFIERS.spotterMultiplier,
      MODIFIERS.aftMultiplier]
    norm_num
  · norm_num

/-- C1 (amended): the DD rule and the spotter rule are mutually exclusive
else-if branches, but the U.S.A.-BB equipment rule is an independent if: a
U.S.A. BB without spotter receives only the 1.16 multiplier, a U.S.A. BB
with spotter receives both 1.16 and 1.2, a DD never receives the spotter
multiplier, and the per-vehicle override multiplies on top of whichever
branches fired. -/
theorem claim_C1 :
    (∀ (base : ℚ) (name : String),
      calculateModifiedRange base "BB" false name "U.S.A." =
        base * 1.16 * uniqFactor name) ∧
    (∀ (base : ℚ) (name : String),
      calculateModifiedRange base "BB" true name "U.S.A." =
        base * 1.16 * 1.2 * uniqFactor name) ∧
    (∀ (base : ℚ) (hasSpotter : Bool) (name nation : String),
      calculateModifiedRange base "DD" hasSpotter name nation =
        base * 1.2 * uniqFactor name) ∧
    (∀ (base : ℚ) (cls : String) (hasSpotter : Bool) (name nation : String),
      calculateModifiedRange base cls hasSpotter name nation =
        preOverrideRange base cls hasSpotter nation * uniqFactor name) := by
  refine ⟨?_, ?_, ?_, fun base cls sp name nation =>
    cMR_eq_pre_mul_uniq base cls sp name nation⟩
  all_goals
    intros
    rw [cMR_eq_pre_mul_uniq]
    unfold preOverrideRange MODIFIERS.aprm1Multiplier MODIFIERS.aftMultiplier
      MODIFIERS.spotterMultiplier
    simp
    try norm_num

/-- C10: the modified range is never below the base range: every branch
multiplies by a factor of at least one. -/
theorem claim_C10 (base : ℚ) (cls : String) (hasSpotter : Bool)
    (name nation : String) (hb : 0 ≤ base) :
    base ≤ calculateModifiedRange base cls hasSpotter name nation := by
  rw [cMR_eq_pre_mul_uniq]
  have h1 := base_le_preOverrideRange base cls hasSpotter nation hb
  have h2 := one_le_uniqFactor name
  nlinarith

/-- C10 witness. -/
theorem claim_C10_witness :
    0 ≤ (10 : ℚ) ∧
    (10 : ℚ) ≤ calculateModifiedRange 10 "BB" true "Henri IV" "U.S.A." :=
  ⟨by norm_num, claim_C10 10 "BB" true "Henri IV" "U.S.A." (by norm_num)⟩

/-! ### The range conversion round trip -/

/-- C8 counterexample: for the positive range 303/20000 km (0.01515 km) the
converted value is 1, and reversing the conversion yields 0.0303 km, an
error of 100 percent, far above 0.1 percent. -/
theorem claim_C8_counterexample :
    0 < (303/20000 : ℚ) ∧
    calculateConvertedRange (303/20000) = 1 ∧
    ¬(|(calculateConvertedRange (303/20000) : ℚ) * 30.3 / 1000 - 303/20000| ≤
        0.001 * (303/20000)) := by
  have h : calculateConvertedRange (303/20000) = 1 := by
    unfold calculateConvertedRange jsRound
    norm_num
  refine ⟨by norm_num, h, ?_⟩
  rw [h]
  rw [show ((1:ℤ):ℚ) * 30.3 / 1000 - 303/20000 = 303/20000 from by norm_num]
  rw [abs_of_nonneg (by norm_num : (0:ℚ) ≤ 303/20000)]
  norm_num

/-- C8 (amended): the converted range is `round(rangeKm * 1000 / 30.3)`, and
for every range of at least 15.15 km the reversed conversion recovers the
range within 0.1 percent (for smaller ranges the half-unit rounding error
of up to 0.01515 km can exceed 0.1 percent). -/
theorem claim_C8 (r : ℚ) (hr : 15.15 ≤ r) :
    calculateConvertedRange r = ⌊r * 1000 / 30.3 + 1/2⌋ ∧
    |(calculateConvertedRange r : ℚ) * 30.3 / 1000 - r| ≤ 0.001 * r := by
  refine ⟨rfl, ?_⟩
  have h1 : (calculateConvertedRange r : ℚ) ≤ r * 1000 / 30.3 + 1/2 :=
    Int.floor_le _
  have h2 : r * 1000 / 30.3 + 1/2 < (calculateConvertedRange r : ℚ) + 1 :=
    Int.lt_floor_add_one _
  rw [abs_le]
  norm_num at h1 h2 hr ⊢
  constructor <;> nlinarith

/-- C8 witness: at 20 km the round trip is within 0.1 percent. -/
theorem claim_C8_witness :
    calculateConvertedRange 20 = ⌊(20 : ℚ) * 1000 / 30.3 + 1/2⌋ ∧
    |(calculateConvertedRange 20 : ℚ) * 30.3 / 1000 - 20| ≤ 0.001 * 20 :=
  claim_C8 20 (by norm_num)

/-! ### Exit-index characterization of the integration loop -/

/-- The state after `n` RK4 steps. -/
noncomputable def stepN (k : ℝ) (n : ℕ) (s : SimState) : SimState :=
  (fun st => rk4Step st 0.02 k)^[n] s

theorem stepN_zero (k : ℝ) (s : SimState) : stepN k 0 s = s := rfl

theorem stepN_succ_left (k : ℝ) (n : ℕ) (s : SimState) :
    stepN k (n + 1) s = stepN k n (rk4Step s 0.02 k) :=
  Function.iterate_succ_apply _ _ _

/-- If the loop guard holds for the first `n` states and fails at the state
after `n` steps, the loop with any fuel of at least `n` returns that state
and the elapsed time `t + n * 0.02`. -/
theorem simLoop_exit (k : ℝ) (n : ℕ) :
    ∀ (s : SimState) (t : ℝ) (f : ℕ), n ≤ f →
    (∀ m : ℕ, m < n → (stepN k m s).y ≥ 0 ∧ t + m * 0.02 < 120) →
    ¬((stepN k n s).y ≥ 0 ∧ t + n * 0.02 < 120) →
    simLoop k f s t = (stepN k n s, t + n * 0.02) := by
  induction n with
  | zero =>
    intro s t f _ _ hstop
    rw [stepN_zero] at hstop ⊢
    have ht : t + (0 : ℕ) * 0.02 = t := by push_cast; ring
    rw [ht] at hstop ⊢
    cases f with
    | zero => rfl
    | succ f => unfold simLoop; rw [if_neg hstop]
  | succ n ih =>
    intro s t f hf hrun hstop
    obtain ⟨f, rfl⟩ : ∃ g, f = g + 1 := ⟨f - 1, by omega⟩
    have hg0 : s.y ≥ 0 ∧ t < 120 := by
      have := hrun 0 (Nat.succ_pos n)
      rw [stepN_zero] at this
      constructor
      · exact this.1
      · have h2 := this.2
        push_cast at h2
        linarith
    unfold simLoop
    rw [if_pos hg0]
    have hrec := ih (rk4Step s 0.02 k) (t + 0.02) f (by omega) ?_ ?_
    · rw [hrec]
      rw [← stepN_succ_left]
      have : t + 0.02 + (n : ℝ) * 0.02 = t + ((n : ℕ) + 1 : ℕ) * 0.02 := by
        push_cast; ring
      rw [this]
    · intro m hm
      have := hrun (m + 1) (by omega)
      rw [stepN_succ_left] at this
      refine ⟨this.1, ?_⟩
      have h2 := this.2
      push_cast at h2 ⊢
      linarith
    · rw [← stepN_succ_left]
      intro hcon
      refine hstop ⟨hcon.1, ?_⟩
      have h2 := hcon.2
      push_cast at h2 ⊢
      linarith

/-- The loop guard fails within 6000 steps: the elapsed time reaches the
120 s ceiling.  Returns the exact exit index. -/
theorem exists_exit (k : ℝ) (s : SimState) :
    ∃ n : ℕ, n ≤ 6000 ∧
      (∀ m : ℕ, m < n → (stepN k m s).y ≥ 0 ∧ (m : ℝ) * 0.02 < 120) ∧
      ¬((stepN k n s).y ≥ 0 ∧ (n : ℝ) * 0.02 < 120) := by
  classical
  have h6000 : ¬((stepN k 6000 s).y ≥ 0 ∧ ((6000 : ℕ) : ℝ) * 0.02 < 120) := by
    intro h
    have := h.2
    norm_num at this
  have hex : ∃ n : ℕ, ¬((stepN k n s).y ≥ 0 ∧ (n : ℝ) * 0.02 < 120) :=
    ⟨6000, h6000⟩
  refine ⟨Nat.find hex, Nat.find_le h6000, ?_, Nat.find_spec hex⟩
  intro m hm
  have := Nat.find_min hex hm
  exact not_not.mp this

/-- Full specification of one `simulateTrajectory` run: there is an exit
index `n` between 1 and 6000 such that the loop stops after exactly `n`
steps of 0.02 s, and the result is fuel-independent from 6001 upward. -/
theorem simulateTrajectory_spec (launchAngleDeg : ℝ) (p : ShellParams) :
    ∃ n : ℕ, 1 ≤ n ∧ n ≤ 6000 ∧
      (∀ f : ℕ, n ≤ f →
        simLoop (simK p) f (initState launchAngleDeg p) 0 =
          (stepN (simK p) n (initState launchAngleDeg p), (n : ℝ) * 0.02)) ∧
      (simulateTrajectory launchAngleDeg p).flightTime = (n : ℝ) * 0.02 := by
  obtain ⟨n, hn, hrun, hstop⟩ := exists_exit (simK p) (initState launchAngleDeg p)
  have hloop : ∀ f : ℕ, n ≤ f →
      simLoop (simK p) f (initState launchAngleDeg p) 0 =
        (stepN (simK p) n (initState launchAngleDeg p), (n : ℝ) * 0.02) := by
    intro f hf
    have heq := simLoop_exit (simK p) n (initState launchAngleDeg p) 0 f hf
      (fun m hm => by
        have := hrun m hm
        exact ⟨this.1, by rw [zero_add]; exact this.2⟩)
      (fun h => hstop ⟨h.1, by rw [zero_add] at h; exact h.2⟩)
    rw [heq, zero_add]
  have hn1 : 1 ≤ n := by
    rcases Nat.eq_zero_or_pos n with h0 | h1
    · exfalso
      apply hstop
      rw [h0, stepN_zero]
      constructor
      · have : (initState launchAngleDeg p).y = 0 := rfl
        rw [this]
      · norm_num
    · exact h1
  refine ⟨n, hn1, hn, hloop, ?_⟩
  show (simLoop (simK p) 6001 (initState launchAngleDeg p) 0).2 = n * 0.02
  rw [hloop 6001 (by omega)]

/-! ### C5 and C3 -/

/-- C5: the integration loop always terminates: it runs between 1 and 6000
steps of 0.02 s (so the flight time is between 0.02 s and 120 s), and in
exact arithmetic any fuel of at least 6001 reproduces the unbounded while
loop. -/
theorem claim_C5 (launchAngleDeg : ℝ) (p : ShellParams) :
    (∃ n : ℕ, 1 ≤ n ∧ n ≤ 6000 ∧
      (simulateTrajectory launchAngleDeg p).flightTime = (n : ℝ) * 0.02) ∧
    0.02 ≤ (simulateTrajectory launchAngleDeg p).flightTime ∧
    (simulateTrajectory launchAngleDeg p).flightTime ≤ 120 ∧
    (∀ f : ℕ, 6001 ≤ f →
      simLoop (simK p) f (initState launchAngleDeg p) 0 =
        simLoop (simK p) 6001 (initState launchAngleDeg p) 0) := by
  obtain ⟨n, h1, h6000, hloop, hft⟩ := simulateTrajectory_spec launchAngleDeg p
  refine ⟨⟨n, h1, h6000, hft⟩, ?_, ?_, ?_⟩
  · rw [hft]
    have : (1 : ℝ) ≤ (n : ℝ) := by exact_mod_cast h1
    nlinarith
  · rw [hft]
    have : (n : ℝ) ≤ 6000 := by exact_mod_cast h6000
    nlinarith
  · intro f hf
    rw [hloop f (by omega), hloop 6001 (by omega)]

/-- C5 witness: a concrete shell (the zero record). -/
theorem claim_C5_witness :
    0.02 ≤ (simulateTrajectory 0 ⟨0, 0, 0, 0⟩).flightTime ∧
    (simulateTrajectory 0 ⟨0, 0, 0, 0⟩).flightTime ≤ 120 ∧
    simLoop (simK ⟨0, 0, 0, 0⟩) 6002 (initState 0 ⟨0, 0, 0, 0⟩) 0 =
      simLoop (simK ⟨0, 0, 0, 0⟩) 6001 (initState 0 ⟨0, 0, 0, 0⟩) 0 :=
  ⟨(claim_C5 0 ⟨0, 0, 0, 0⟩).2.1, (claim_C5 0 ⟨0, 0, 0, 0⟩).2.2.1,
    (claim_C5 0 ⟨0, 0, 0, 0⟩).2.2.2 6002 (by norm_num)⟩

/-- C3: `getBallisticsAtRange` returns the game-adjusted flight time of the
re-simulation at the solved angle (raw time divided by 2.75), never the raw
time (they differ because the raw flight time is positive), and passes
through the impact angle and impact velocity of that same re-simulation. -/
theorem claim_C3 (targetRangeKm : ℝ) (p : ShellParams) :
    (getBallisticsAtRange targetRangeKm p).flightTime =
      (simulateTrajectory (findLaunchAngle (targetRangeKm * 1000) p) p).flightTime
        / 2.75 ∧
    (getBallisticsAtRange targetRangeKm p).flightTime ≠
      (simulateTrajectory (findLaunchAngle (targetRangeKm * 1000) p) p).flightTime ∧
    (getBallisticsAtRange targetRangeKm p).impactAngle =
      (simulateTrajectory (findLaunchAngle (targetRangeKm * 1000) p) p).impactAngle ∧
    (getBallisticsAtRange targetRangeKm p).impactVelocity =
      (simulateTrajectory (findLaunchAngle (targetRangeKm * 1000) p) p).impactVelocity := by
  obtain ⟨n, h1, h6000, hloop, hft⟩ :=
    simulateTrajectory_spec (findLaunchAngle (targetRangeKm * 1000) p) p
  have hpos : 0 <
      (simulateTrajectory (findLaunchAngle (targetRangeKm * 1000) p) p).flightTime := by
    rw [hft]
    have : (1 : ℝ) ≤ (n : ℝ) := by exact_mod_cast h1
    nlinarith
  refine ⟨rfl, ?_, rfl, rfl⟩
  have hadj : (getBallisticsAtRange targetRangeKm p).flightTime =
      (simulateTrajectory (findLaunchAngle (targetRangeKm * 1000) p) p).flightTime
        / 2.75 := rfl
  rw [hadj]
  intro heq
  have h275 : (2.75 : ℝ) ≠ 0 := by norm_num
  have := (div_eq_iff h275).mp heq
  nlinarith

/-! ### C2: the factor function and its rejection boundary -/

theorem cos_85_0001_lt : Real.cos (85.0001 * Real.pi / 180) < 0.0872 := by
  have hpi1 := Real.pi_gt_d6
  have hpi2 := Real.pi_lt_d6
  have hrw : (85.0001 : ℝ) * Real.pi / 180 =
      Real.pi / 2 - 4.9999 * Real.pi / 180 := by ring
  rw [hrw, Real.cos_pi_div_two_sub]
  set y := (4.9999 : ℝ) * Real.pi / 180 with hy
  have hyl : (0.0872646 : ℝ) ≤ y := by rw [hy]; nlinarith
  have hyu : y ≤ (0.0872648 : ℝ) := by rw [hy]; nlinarith
  have hy1 : |y| ≤ 1 := by
    rw [abs_of_nonneg (by linarith : (0:ℝ) ≤ y)]; linarith
  have hb := Real.sin_bound hy1
  rw [abs_of_nonneg (by linarith : (0:ℝ) ≤ y)] at hb
  obtain ⟨hbl, hbu⟩ := abs_le.mp hb
  have h3 : (0.0872646 : ℝ) ^ 3 ≤ y ^ 3 := by
    apply pow_le_pow_left₀ (by norm_num) hyl
  have h4 : y ^ 4 ≤ (0.0872648 : ℝ) ^ 4 := by
    apply pow_le_pow_left₀ (by linarith) hyu
  nlinarith

theorem cos_84_9_ge : (0.0872 : ℝ) ≤ Real.cos (84.9 * Real.pi / 180) := by
  have hpi1 := Real.pi_gt_d6
  have hpi2 := Real.pi_lt_d6
  have hrw : (84.9 : ℝ) * Real.pi / 180 =
      Real.pi / 2 - 5.1 * Real.pi / 180 := by ring
  rw [hrw, Real.cos_pi_div_two_sub]
  set y := (5.1 : ℝ) * Real.pi / 180 with hy
  have hyl : (0.0890117 : ℝ) ≤ y := by rw [hy]; nlinarith
  have hyu : y ≤ (0.0890119 : ℝ) := by rw [hy]; nlinarith
  have hy1 : |y| ≤ 1 := by
    rw [abs_of_nonneg (by linarith : (0:ℝ) ≤ y)]; linarith
  have hb := Real.sin_bound hy1
  rw [abs_of_nonneg (by linarith : (0:ℝ) ≤ y)] at hb
  obtain ⟨hbl, hbu⟩ := abs_le.mp hb
  have h3 : y ^ 3 ≤ (0.0890119 : ℝ) ^ 3 := by
    apply pow_le_pow_left₀ (by linarith) hyu
  have h4 : y ^ 4 ≤ (0.0890119 : ℝ) ^ 4 := by
    apply pow_le_pow_left₀ (by linarith) hyu
  nlinarith

/-- C2: `calculateFactor` returns `none` exactly when the range or the
flight time is nonpositive or the cosine of the impact angle is below
0.0872; otherwise it returns the factor formula rounded to three decimal
places.  In particular every positive range and flight time is rejected at
85.0001 degrees and accepted at 84.9 degrees. -/
theorem claim_C2 :
    (∀ rangeKm flightTime impactAngleDeg : ℝ,
      (calculateFactor rangeKm flightTime impactAngleDeg = none ↔
        rangeKm ≤ 0 ∨ flightTime ≤ 0 ∨
          Real.cos (impactAngleDeg * Real.pi / 180) < 0.0872)) ∧
    (∀ rangeKm flightTime impactAngleDeg : ℝ,
      ¬(rangeKm ≤ 0 ∨ flightTime ≤ 0) →
      ¬(Real.cos (impactAngleDeg * Real.pi / 180) < 0.0872) →
      calculateFactor rangeKm flightTime impactAngleDeg =
        some ((jsRoundR (rangeKm * 1000 /
          (flightTime * Real.cos (impactAngleDeg * Real.pi / 180)) / 32 *
            1000) : ℝ) / 1000)) ∧
    (∀ rangeKm flightTime : ℝ, 0 < rangeKm → 0 < flightTime →
      calculateFactor rangeKm flightTime 85.0001 = none ∧
      (calculateFactor rangeKm flightTime 84.9).isSome = true) := by
  have hiff : ∀ rangeKm flightTime impactAngleDeg : ℝ,
      (calculateFactor rangeKm flightTime impactAngleDeg = none ↔
        rangeKm ≤ 0 ∨ flightTime ≤ 0 ∨
          Real.cos (impactAngleDeg * Real.pi / 180) < 0.0872) := by
    intro r t a
    unfold calculateFactor
    by_cases h1 : r ≤ 0 ∨ t ≤ 0
    · rw [if_pos h1]
      simp only [true_iff]
      rcases h1 with h | h
      · exact Or.inl h
      · exact Or.inr (Or.inl h)
    · rw [if_neg h1]
      by_cases h2 : Real.cos (a * Real.pi / 180) < 0.0872
      · rw [if_pos h2]
        simp only [true_iff]
        exact Or.inr (Or.inr h2)
      · rw [if_neg h2]
        push_neg at h1
        simp only [reduceCtorEq, false_iff]
        push_neg
        exact ⟨h1.1, h1.2, not_lt.mp h2⟩
  have hval : ∀ rangeKm flightTime impactAngleDeg : ℝ,
      ¬(rangeKm ≤ 0 ∨ flightTime ≤ 0) →
      ¬(Real.cos (impactAngleDeg * Real.pi / 180) < 0.0872) →
      calculateFactor rangeKm flightTime impactAngleDeg =
        some ((jsRoundR (rangeKm * 1000 /
          (flightTime * Real.cos (impactAngleDeg * Real.pi / 180)) / 32 *
            1000) : ℝ) / 1000) := by
    intro r t a h1 h2
    unfold calculateFactor
    rw [if_neg h1, if_neg h2]
  refine ⟨hiff, hval, fun r t hr ht => ⟨?_, ?_⟩⟩
  · rw [hiff]
    exact Or.inr (Or.inr cos_85_0001_lt)
  · rw [hval r t 84.9 (by push_neg; exact ⟨hr, ht⟩) (not_lt.mpr cos_84_9_ge)]
    rfl

/-- C2 witness: the boundary behaviour at range 1 km and flight time 1 s. -/
theorem claim_C2_witness :
    calculateFactor 1 1 85.0001 = none ∧
    (calculateFactor 1 1 84.9).isSome = true :=
  claim_C2.2.2 1 1 one_pos one_pos

/-! ### C4: the bisection loop runs exactly 16 iterations -/

theorem guard_of_pow_le (k : ℕ) (hk : k ≤ 15) :
    (0.001 : ℝ) < 45 / 2 ^ k := by
  have h2k : (2 : ℝ) ^ k ≤ 2 ^ 15 := by
    apply pow_le_pow_right₀ (by norm_num) hk
  have hpos : (0 : ℝ) < 2 ^ k := by positivity
  have : (45 : ℝ) / 2 ^ 15 ≤ 45 / 2 ^ k := by gcongr
  have h15 : (0.001 : ℝ) < 45 / 2 ^ 15 := by norm_num
  linarith

/-- While at most 16 total halvings have happened, the bisection loop
consumes all its fuel, halving the bracket width each iteration and keeping
the bracket nested inside the previous one. -/
theorem bisectLoop_run (p : ShellParams) (T : ℝ) :
    ∀ (n k : ℕ) (low high : ℝ), low ≤ high → 0 ≤ low → high ≤ 45 →
    high - low = 45 / 2 ^ k → n + k ≤ 16 →
    ∃ l h : ℝ, bisectLoop p T n low high = (l, h) ∧
      h - l = 45 / 2 ^ (k + n) ∧ 0 ≤ l ∧ h ≤ 45 ∧ l ≤ h ∧ low ≤ l ∧ h ≤ high := by
  intro n
  induction n with
  | zero =>
    intro k low high hlh hl hh hw _
    exact ⟨low, high, rfl, by rw [Nat.add_zero]; exact hw, hl, hh, hlh, le_refl _,
      le_refl _⟩
  | succ n ih =>
    intro k low high hlh hl hh hw hn
    have hk15 : k ≤ 15 := by omega
    have hguard : high - low > 0.001 := by
      rw [hw]; exact guard_of_pow_le k hk15
    have hmid1 : low ≤ (low + high) / 2 := by linarith
    have hmid2 : (low + high) / 2 ≤ high := by linarith
    have hhalf : (45 : ℝ) / 2 ^ k / 2 = 45 / 2 ^ (k + 1) := by
      rw [pow_succ, div_div]
    have hkn : k + 1 + n = k + (n + 1) := by omega
    simp only [bisectLoop]
    rw [if_pos hguard]
    by_cases hcmp : (simulateTrajectory ((low + high) / 2) p).range < T
    · rw [if_pos hcmp]
      obtain ⟨l, h, heq, hwidth, h0, h45, hlh2, hnest1, hnest2⟩ :=
        ih (k + 1) ((low + high) / 2) high hmid2 (by linarith) hh
          (by rw [← hhalf, ← hw]; ring) (by omega)
      refine ⟨l, h, heq, ?_, h0, h45, hlh2, by linarith, hnest2⟩
      rw [hwidth, hkn]
    · rw [if_neg hcmp]
      obtain ⟨l, h, heq, hwidth, h0, h45, hlh2, hnest1, hnest2⟩ :=
        ih (k + 1) low ((low + high) / 2) hmid1 hl (by linarith)
          (by rw [← hhalf, ← hw]; ring) (by omega)
      refine ⟨l, h, heq, ?_, h0, h45, hlh2, hnest1, by linarith⟩
      rw [hwidth, hkn]

/-- Once `n + k = 16`, any fuel of at least `n` gives the same result as
fuel `n`: the loop terminates after exactly the remaining `n` iterations. -/
theorem bisectLoop_stable (p : ShellParams) (T : ℝ) :
    ∀ (n k : ℕ) (low high : ℝ), n + k = 16 → high - low = 45 / 2 ^ k →
    ∀ f : ℕ, n ≤ f →
    bisectLoop p T f low high = bisectLoop p T n low high := by
  intro n
  induction n with
  | zero =>
    intro k low high hnk hw f _
    have hstop : ¬(high - low > 0.001) := by
      rw [hw]
      have hk : k = 16 := by omega
      rw [hk]
      norm_num
    cases f with
    | zero => rfl
    | succ f =>
      simp only [bisectLoop]
      rw [if_neg hstop]
  | succ n ih =>
    intro k low high hnk hw f hf
    have hguard : high - low > 0.001 := by
      rw [hw]; exact guard_of_pow_le k (by omega)
    obtain ⟨f, rfl⟩ : ∃ g, f = g + 1 := ⟨f - 1, by omega⟩
    have hhalf : (45 : ℝ) / 2 ^ k / 2 = 45 / 2 ^ (k + 1) := by
      rw [pow_succ, div_div]
    simp only [bisectLoop]
    rw [if_pos hguard, if_pos hguard]
    by_cases hcmp : (simulateTrajectory ((low + high) / 2) p).range < T
    · rw [if_pos hcmp, if_pos hcmp]
      exact ih (k + 1) ((low + high) / 2) high (by omega)
        (by rw [← hhalf, ← hw]; ring) f (by omega)
    · rw [if_neg hcmp, if_neg hcmp]
      exact ih (k + 1) low ((low + high) / 2) (by omega)
        (by rw [← hhalf, ← hw]; ring) f (by omega)

/-- C4: the bisection brackets `[0, 45]`, halves the bracket each
iteration, stops as soon as the width is at most 0.001 (which first happens
after exactly 16 iterations, since the width after 15 iterations is still
45/2^15 > 0.001 and after 16 it is 45/2^16 <= 0.001), returns the final
bracket midpoint, and that midpoint lies in `[0, 45]`. -/
theorem claim_C4 (targetRangeMeters : ℝ) (p : ShellParams) :
    (∀ f : ℕ, 16 ≤ f →
      bisectLoop p targetRangeMeters f 0 45 =
        bisectLoop p targetRangeMeters 16 0 45) ∧
    0.001 < (bisectLoop p targetRangeMeters 15 0 45).2 -
      (bisectLoop p targetRangeMeters 15 0 45).1 ∧
    (bisectLoop p targetRangeMeters 16 0 45).2 -
      (bisectLoop p targetRangeMeters 16 0 45).1 ≤ 0.001 ∧
    findLaunchAngle targetRangeMeters p =
      ((bisectLoop p targetRangeMeters 16 0 45).1 +
        (bisectLoop p targetRangeMeters 16 0 45).2) / 2 ∧
    0 ≤ findLaunchAngle targetRangeMeters p ∧
    findLaunchAngle targetRangeMeters p ≤ 45 := by
  have hw0 : (45 : ℝ) - 0 = 45 / 2 ^ 0 := by norm_num
  have hstable : ∀ f : ℕ, 16 ≤ f →
      bisectLoop p targetRangeMeters f 0 45 =
        bisectLoop p targetRangeMeters 16 0 45 := by
    intro f hf
    exact bisectLoop_stable p targetRangeMeters 16 0 0 45 (by omega) hw0 f hf
  obtain ⟨l15, h15, heq15, hwidth15, _, _, _, _, _⟩ :=
    bisectLoop_run p targetRangeMeters 15 0 0 45 (by norm_num) (le_refl _)
      (by norm_num) hw0 (by omega)
  obtain ⟨l16, h16, heq16, hwidth16, h0, h45, hlh, _, _⟩ :=
    bisectLoop_run p targetRangeMeters 16 0 0 45 (by norm_num) (le_refl _)
      (by norm_num) hw0 (by omega)
  have hfla : findLaunchAngle targetRangeMeters p =
      ((bisectLoop p targetRangeMeters 16 0 45).1 +
        (bisectLoop p targetRangeMeters 16 0 45).2) / 2 := by
    unfold findLaunchAngle
    rw [hstable 17 (by omega)]
  refine ⟨hstable, ?_, ?_, hfla, ?_, ?_⟩
  · rw [heq15]
    simp only
    rw [hwidth15]
    norm_num
  · rw [heq16]
    simp only
    rw [hwidth16]
    norm_num
  · rw [hfla, heq16]
    simp only
    linarith
  · rw [hfla, heq16]
    simp only
    linarith

/-- C4 witness: a concrete target and shell. -/
theorem claim_C4_witness :
    bisectLoop ⟨800, 203, 100, 0.3⟩ 15000 17 0 45 =
      bisectLoop ⟨800, 203, 100, 0.3⟩ 15000 16 0 45 ∧
    0 ≤ findLaunchAngle 15000 ⟨800, 203, 100, 0.3⟩ ∧
    findLaunchAngle 15000 ⟨800, 203, 100, 0.3⟩ ≤ 45 :=
  ⟨(claim_C4 15000 ⟨800, 203, 100, 0.3⟩).1 17 (by norm_num),
    (claim_C4 15000 ⟨800, 203, 100, 0.3⟩).2.2.2.2.1,
    (claim_C4 15000 ⟨800, 203, 100, 0.3⟩).2.2.2.2.2⟩

/-! ### Zero-drag closed form of the integrator (used for C7) -/

theorem stepN_succ_right (k : ℝ) (n : ℕ) (s : SimState) :
    stepN k (n + 1) s = rk4Step (stepN k n s) 0.02 k :=
  Function.iterate_succ_apply' _ _ _

theorem derivatives_zero_drag (s : SimState) :
    derivatives s 0 = { dx := s.vx, dy := s.vy, dvx := 0, dvy := -PHYSICS.g } := by
  unfold derivatives
  exact simDeriv_ext_of _ _ rfl rfl (by ring) (by ring)

theorem rk4Step_zero_drag (s : SimState) (dt : ℝ) :
    rk4Step s dt 0 =
      { x := s.x + dt * s.vx
        y := s.y + dt * s.vy - PHYSICS.g * dt ^ 2 / 2
        vx := s.vx
        vy := s.vy - PHYSICS.g * dt } := by
  unfold rk4Step
  simp only [derivatives_zero_drag]
  exact simState_ext_of _ _ (by dsimp only; ring) (by dsimp only; ring)
    (by dsimp only; ring) (by dsimp only; ring)

theorem stepN_zero_drag (n : ℕ) (s : SimState) :
    stepN 0 n s =
      { x := s.x + (n : ℝ) * 0.02 * s.vx
        y := s.y + (n : ℝ) * 0.02 * s.vy - PHYSICS.g * ((n : ℝ) * 0.02) ^ 2 / 2
        vx := s.vx
        vy := s.vy - PHYSICS.g * ((n : ℝ) * 0.02) } := by
  induction n with
  | zero =>
    rw [stepN_zero]
    exact simState_ext_of _ _ (by push_cast; ring) (by push_cast; ring)
      (by push_cast; ring) (by push_cast; ring)
  | succ n ih =>
    rw [stepN_succ_right, ih, rk4Step_zero_drag]
    apply simState_ext_of
    all_goals dsimp only
    all_goals push_cast
    all_goals ring

/-- With zero combined drag, if the initial vertical velocity lies in
`[0.0981 (n-1), 0.0981 n)`, the integration loop exits after exactly `n`
steps and the simulated range is `n * 0.02 * vx0`.  (The altitude after `m`
steps is `0.02 m (vy0 - 0.0981 m)`, and `0.0981 = g * dt / 2`.) -/
theorem sim_exit_range (θ : ℝ) (p : ShellParams) (hk : simK p = 0) (n : ℕ)
    (hn1 : 1 ≤ n) (hn2 : n ≤ 6000)
    (hup : 0.0981 * ((n : ℝ) - 1) ≤
      p.muzzleVelocity * Real.sin (θ * Real.pi / 180))
    (hdown : p.muzzleVelocity * Real.sin (θ * Real.pi / 180) <
      0.0981 * (n : ℝ)) :
    (simulateTrajectory θ p).range =
      (n : ℝ) * 0.02 * (p.muzzleVelocity * Real.cos (θ * Real.pi / 180)) := by
  have hy0 : (initState θ p).y = 0 := rfl
  have hvyproj : (initState θ p).vy =
      p.muzzleVelocity * Real.sin (θ * Real.pi / 180) := rfl
  have hg : PHYSICS.g = 9.81 := rfl
  have hn1R : (1 : ℝ) ≤ (n : ℝ) := by exact_mod_cast hn1
  have hstop : ¬((stepN 0 n (initState θ p)).y ≥ 0 ∧
      (0 : ℝ) + (n : ℕ) * 0.02 < 120) := by
    rw [stepN_zero_drag]
    dsimp only
    rw [hy0, hvyproj, hg]
    intro hcon
    have hyn := hcon.1
    have hd : (0 : ℝ) < 0.0981 * (n : ℝ) -
        p.muzzleVelocity * Real.sin (θ * Real.pi / 180) := by linarith
    have hnpos : (0 : ℝ) < (n : ℝ) := by linarith
    nlinarith [mul_pos hnpos hd]
  have hrun : ∀ m : ℕ, m < n →
      (stepN 0 m (initState θ p)).y ≥ 0 ∧ (0 : ℝ) + (m : ℕ) * 0.02 < 120 := by
    intro m hm
    have hmR : (m : ℝ) ≤ (n : ℝ) - 1 := by
      have : (m : ℝ) + 1 ≤ (n : ℝ) := by exact_mod_cast hm
      linarith
    have hm0 : (0 : ℝ) ≤ (m : ℝ) := Nat.cast_nonneg m
    have hn6000 : (n : ℝ) ≤ 6000 := by exact_mod_cast hn2
    constructor
    · rw [stepN_zero_drag]
      dsimp only
      rw [hy0, hvyproj, hg]
      have hrem : 0 ≤ p.muzzleVelocity * Real.sin (θ * Real.pi / 180) -
          0.0981 * (m : ℝ) := by linarith
      have hu : (0 : ℝ) ≤ (m : ℝ) * 0.02 := by positivity
      nlinarith [mul_nonneg hu hrem]
    · linarith
  have hexit := simLoop_exit 0 n (initState θ p) 0 6001 (by omega) hrun hstop
  show (simLoop (simK p) 6001 (initState θ p) 0).1.x = _
  rw [hk, hexit]
  dsimp only
  rw [stepN_zero_drag]
  dsimp only
  have hx0 : (initState θ p).x = 0 := rfl
  have hvx : (initState θ p).vx =
      p.muzzleVelocity * Real.cos (θ * Real.pi / 180) := rfl
  rw [hx0, hvx]
  ring

/-! ### Taylor bounds for the sines and cosines the counterexample needs -/

theorem sin_taylor_bounds (y a b : ℝ) (hya : a ≤ y) (hyb : y ≤ b) (ha : 0 ≤ a)
    (hb : b ≤ 1) :
    a - b ^ 3 / 6 - b ^ 4 * (5 / 96) ≤ Real.sin y ∧
    Real.sin y ≤ b - a ^ 3 / 6 + b ^ 4 * (5 / 96) := by
  have hy0 : 0 ≤ y := le_trans ha hya
  have hy1 : |y| ≤ 1 := by
    rw [abs_of_nonneg hy0]
    linarith
  have hsb := Real.sin_bound hy1
  rw [abs_of_nonneg hy0] at hsb
  obtain ⟨h1, h2⟩ := abs_le.mp hsb
  have h3l : a ^ 3 ≤ y ^ 3 := pow_le_pow_left₀ ha hya 3
  have h3u : y ^ 3 ≤ b ^ 3 := pow_le_pow_left₀ hy0 hyb 3
  have h4 : y ^ 4 ≤ b ^ 4 := pow_le_pow_left₀ hy0 hyb 4
  constructor
  · nlinarith
  · nlinarith

theorem cos_taylor_bounds (y a b : ℝ) (hya : a ≤ y) (hyb : y ≤ b) (ha : 0 ≤ a)
    (hb : b ≤ 1) :
    1 - b ^ 2 / 2 - b ^ 4 * (5 / 96) ≤ Real.cos y ∧
    Real.cos y ≤ 1 - a ^ 2 / 2 + b ^ 4 * (5 / 96) := by
  have hy0 : 0 ≤ y := le_trans ha hya
  have hy1 : |y| ≤ 1 := by
    rw [abs_of_nonneg hy0]
    linarith
  have hcb := Real.cos_bound hy1
  rw [abs_of_nonneg hy0] at hcb
  obtain ⟨h1, h2⟩ := abs_le.mp hcb
  have h2l : a ^ 2 ≤ y ^ 2 := pow_le_pow_left₀ ha hya 2
  have h2u : y ^ 2 ≤ b ^ 2 := pow_le_pow_left₀ hy0 hyb 2
  have h4 : y ^ 4 ≤ b ^ 4 := pow_le_pow_left₀ hy0 hyb 4
  constructor
  · nlinarith
  · nlinarith

theorem sin_pi_div_8_bounds :
    0.2943 ≤ Real.sin (Real.pi / 8) ∧ Real.sin (Real.pi / 8) < 0.3924 := by
  have hpil := Real.pi_gt_d6
  have hpiu := Real.pi_lt_d6
  obtain ⟨hl, hu⟩ := sin_taylor_bounds (Real.pi / 8) 0.392699 0.3926992
    (by linarith) (by linarith) (by norm_num) (by norm_num)
  constructor
  · nlinarith
  · nlinarith

theorem sin_pi_div_16_bounds :
    0.0981 ≤ Real.sin (Real.pi / 16) ∧ Real.sin (Real.pi / 16) < 0.1962 := by
  have hpil := Real.pi_gt_d6
  have hpiu := Real.pi_lt_d6
  obtain ⟨hl, hu⟩ := sin_taylor_bounds (Real.pi / 16) 0.1963495 0.19634957
    (by linarith) (by linarith) (by norm_num) (by norm_num)
  constructor
  · nlinarith
  · nlinarith

theorem sin_pi_div_32_lt : Real.sin (Real.pi / 32) < 0.0981 := by
  have hpil := Real.pi_gt_d6
  have hpiu := Real.pi_lt_d6
  obtain ⟨hl, hu⟩ := sin_taylor_bounds (Real.pi / 32) 0.0981747 0.0981748
    (by linarith) (by linarith) (by norm_num) (by norm_num)
  nlinarith

theorem cos_pi_div_8_ge : 0.92 ≤ Real.cos (Real.pi / 8) := by
  have hpil := Real.pi_gt_d6
  have hpiu := Real.pi_lt_d6
  obtain ⟨hl, hu⟩ := cos_taylor_bounds (Real.pi / 8) 0.392699 0.3926992
    (by linarith) (by linarith) (by norm_num) (by norm_num)
  nlinarith

theorem cos_pi_div_16_ge : 0.98 ≤ Real.cos (Real.pi / 16) := by
  have hpil := Real.pi_gt_d6
  have hpiu := Real.pi_lt_d6
  obtain ⟨hl, hu⟩ := cos_taylor_bounds (Real.pi / 16) 0.1963495 0.19634957
    (by linarith) (by linarith) (by norm_num) (by norm_num)
  nlinarith

theorem cos_pi_div_32_bounds :
    0.99517 ≤ Real.cos (Real.pi / 32) ∧ Real.cos (Real.pi / 32) ≤ 0.995186 := by
  have hpil := Real.pi_gt_d6
  have hpiu := Real.pi_lt_d6
  obtain ⟨hl, hu⟩ := cos_taylor_bounds (Real.pi / 32) 0.0981747 0.0981748
    (by linarith) (by linarith) (by norm_num) (by norm_num)
  constructor
  · nlinarith
  · nlinarith

/-! ### C7 counterexample

A 1 m/s zero-drag shell: the whole trajectory stays below one centimetre
of altitude (so the atmosphere model is evaluated only at altitudes where
the source behaves exactly like the embedding), the flight lasts at most a
handful of 0.02 s steps, and the simulated range `0.02 n cos(angle)` jumps
whenever the step count `n` changes.  Taking as target exactly the range at
5.625 degrees (a bisection midpoint, where the step count is 1), every
midpoint the bisection probes satisfies `range >= target` - with equality
at 5.625 degrees itself, where the strict `<` comparison still moves the
high bound down - so the solver walks away from the achieving angle and
returns an angle near 0 whose range misses the target by about 0.48
percent. -/

/-- Counterexample shell: muzzle velocity 1 m/s, zero drag. -/
noncomputable def cxParams : ShellParams :=
  { muzzleVelocity := 1, caliber := 100, mass := 1, dragCoefficient := 0 }

/-- Counterexample target: the simulated range of `cxParams` at a launch
angle of 5.625 degrees (radian value pi/32), where the loop runs exactly
one step. -/
noncomputable def cxTarget : ℝ := 0.02 * Real.cos (Real.pi / 32)

theorem cxParams_drag_zero : simK cxParams = 0 := by
  show getCombinedDrag (0 : ℝ) ((100 : ℝ) / 1000) 1 = 0
  unfold getCombinedDrag
  norm_num

theorem cx_range_at (θ : ℝ) (n : ℕ) (hn1 : 1 ≤ n) (hn2 : n ≤ 6000)
    (hup : 0.0981 * ((n : ℝ) - 1) ≤ Real.sin (θ * Real.pi / 180))
    (hdown : Real.sin (θ * Real.pi / 180) < 0.0981 * (n : ℝ)) :
    (simulateTrajectory θ cxParams).range =
      (n : ℝ) * 0.02 * Real.cos (θ * Real.pi / 180) := by
  have hV : cxParams.muzzleVelocity = 1 := rfl
  have h := sim_exit_range θ cxParams cxParams_drag_zero n hn1 hn2 ?_ ?_
  · rw [h, hV, one_mul]
  · rw [hV, one_mul]
    exact hup
  · rw [hV, one_mul]
    exact hdown

/-- Radian value of the midpoint of the bracket `[0, 45 / 2^j]`. -/
theorem mid_rad (j : ℕ) :
    (((0 : ℝ) + 45 / 2 ^ j) / 2) * Real.pi / 180 =
      Real.pi / (2 ^ j * 8) := by
  have h2j : (2 : ℝ) ^ j ≠ 0 := by positivity
  field_simp
  ring

/-- At every midpoint the bisection can probe, the simulated range is at
least the target, so the comparison `range < target` is false and the high
bound moves down. -/
theorem cx_cmp (j : ℕ) :
    ¬((simulateTrajectory (((0 : ℝ) + 45 / 2 ^ j) / 2) cxParams).range <
      cxTarget) := by
  match j with
  | 0 =>
    have hmid : ((0 : ℝ) + 45 / 2 ^ (0 : ℕ)) / 2 = 22.5 := by norm_num
    rw [hmid]
    have hx : (22.5 : ℝ) * Real.pi / 180 = Real.pi / 8 := by ring
    have hs8 := sin_pi_div_8_bounds
    have hc8 := cos_pi_div_8_ge
    have hr := cx_range_at 22.5 4 (by norm_num) (by norm_num) ?_ ?_
    · rw [hr, hx]
      intro hlt
      unfold cxTarget at hlt
      push_cast at hlt
      have hcle : Real.cos (Real.pi / 32) ≤ 1 := Real.cos_le_one _
      nlinarith [hc8, hcle]
    · rw [hx]
      push_cast
      linarith [hs8.1]
    · rw [hx]
      push_cast
      linarith [hs8.2]
  | 1 =>
    have hmid : ((0 : ℝ) + 45 / 2 ^ (1 : ℕ)) / 2 = 11.25 := by norm_num
    rw [hmid]
    have hx : (11.25 : ℝ) * Real.pi / 180 = Real.pi / 16 := by ring
    have hs16 := sin_pi_div_16_bounds
    have hc16 := cos_pi_div_16_ge
    have hr := cx_range_at 11.25 2 (by norm_num) (by norm_num) ?_ ?_
    · rw [hr, hx]
      intro hlt
      unfold cxTarget at hlt
      push_cast at hlt
      have hcle : Real.cos (Real.pi / 32) ≤ 1 := Real.cos_le_one _
      nlinarith [hc16, hcle]
    · rw [hx]
      push_cast
      linarith [hs16.1]
    · rw [hx]
      push_cast
      linarith [hs16.2]
  | Nat.succ (Nat.succ k) =>
    have hrad2 := mid_rad (k + 2)
    have hpipos := Real.pi_pos
    have h32 : (32 : ℝ) ≤ 2 ^ (k + 2) * 8 := by
      have h4 : (4 : ℝ) ≤ 2 ^ (k + 2) := by
        calc (4 : ℝ) = 2 ^ (2 : ℕ) := by norm_num
        _ ≤ 2 ^ (k + 2) := by
          apply pow_le_pow_right₀ (by norm_num)
          omega
      nlinarith
    have hxm_pos : 0 < Real.pi / (2 ^ (k + 2) * 8) := by positivity
    have hxm_le : Real.pi / (2 ^ (k + 2) * 8) ≤ Real.pi / 32 := by gcongr
    have hsin_le : Real.sin (Real.pi / (2 ^ (k + 2) * 8)) ≤
        Real.sin (Real.pi / 32) := by
      apply Real.sin_le_sin_of_le_of_le_pi_div_two ?_ ?_ hxm_le
      · linarith
      · linarith
    have hsin_lt : Real.sin (Real.pi / (2 ^ (k + 2) * 8)) < 0.0981 :=
      lt_of_le_of_lt hsin_le sin_pi_div_32_lt
    have hsin_nn : 0 ≤ Real.sin (Real.pi / (2 ^ (k + 2) * 8)) :=
      Real.sin_nonneg_of_nonneg_of_le_pi (le_of_lt hxm_pos) (by linarith)
    have hcos_ge : Real.cos (Real.pi / 32) ≤
        Real.cos (Real.pi / (2 ^ (k + 2) * 8)) := by
      apply Real.cos_le_cos_of_nonneg_of_le_pi (le_of_lt hxm_pos) ?_ hxm_le
      linarith
    have hr := cx_range_at ((0 + 45 / 2 ^ (k + 2)) / 2) 1 (by norm_num)
      (by norm_num) ?_ ?_
    · rw [hr, hrad2]
      intro hlt
      unfold cxTarget at hlt
      push_cast at hlt
      nlinarith [hcos_ge]
    · rw [hrad2]
      push_cast
      linarith [hsin_nn]
    · rw [hrad2]
      push_cast
      linarith [hsin_lt]

/-- The bisection for `cxParams` and `cxTarget` always moves the high end
down: starting from the bracket `[0, 45 / 2^j]` with `n + j = 16`, any fuel
of at least `n` lands on `(0, 45 / 2^16)`. -/
theorem cx_descend : ∀ n j : ℕ, n + j = 16 → ∀ f : ℕ, n ≤ f →
    bisectLoop cxParams cxTarget f 0 (45 / 2 ^ j) = (0, 45 / 2 ^ 16) := by
  intro n
  induction n with
  | zero =>
    intro j hj f _
    have hj16 : j = 16 := by omega
    subst hj16
    have hstop : ¬((45 : ℝ) / 2 ^ 16 - 0 > 0.001) := by norm_num
    cases f with
    | zero => rfl
    | succ f =>
      simp only [bisectLoop]
      rw [if_neg hstop]
  | succ n ih =>
    intro j hj f hf
    obtain ⟨f, rfl⟩ : ∃ g, f = g + 1 := ⟨f - 1, by omega⟩
    have hguard : (45 : ℝ) / 2 ^ j - 0 > 0.001 := by
      have := guard_of_pow_le j (by omega)
      linarith
    have hmid : ((0 : ℝ) + 45 / 2 ^ j) / 2 = 45 / 2 ^ (j + 1) := by
      rw [pow_succ, ← div_div]
      ring
    have hcmp := cx_cmp j
    simp only [bisectLoop]
    rw [if_pos hguard, if_neg hcmp, hmid]
    exact ih (j + 1) (by omega) f (by omega)

theorem cx_findLaunchAngle :
    findLaunchAngle cxTarget cxParams = (0 + 45 / 2 ^ 16) / 2 := by
  have hbl : bisectLoop cxParams cxTarget 17 0 45 = (0, 45 / 2 ^ 16) := by
    conv_lhs => rw [show (45 : ℝ) = 45 / 2 ^ 0 from by norm_num]
    exact cx_descend 16 0 (by omega) 17 (by omega)
  unfold findLaunchAngle
  rw [hbl]

/-- C7 counterexample: the target `cxTarget` is achievable at 5.625 degrees
inside the bracket, yet re-simulating at the solved angle (about 0.00034
degrees) yields a range about 0.48 percent above the target, outside 0.1
percent.  The whole trajectory stays below 1 cm of altitude, so the source
follows the embedding exactly at this input. -/
theorem claim_C7_counterexample :
    ((0 : ℝ) ≤ 5.625 ∧ (5.625 : ℝ) ≤ 45 ∧
      (simulateTrajectory 5.625 cxParams).range = cxTarget) ∧
    ¬(|(simulateTrajectory (findLaunchAngle cxTarget cxParams)
        cxParams).range - cxTarget| ≤ 0.001 * |cxTarget|) := by
  have hpipos := Real.pi_pos
  have hc32 := cos_pi_div_32_bounds
  constructor
  · refine ⟨by norm_num, by norm_num, ?_⟩
    have hx : (5.625 : ℝ) * Real.pi / 180 = Real.pi / 32 := by ring
    have hsnn : 0 ≤ Real.sin (Real.pi / 32) :=
      Real.sin_nonneg_of_nonneg_of_le_pi (by positivity) (by linarith)
    have hr := cx_range_at 5.625 1 (by norm_num) (by norm_num) ?_ ?_
    · rw [hr, hx]
      unfold cxTarget
      push_cast
      ring
    · rw [hx]
      push_cast
      linarith [hsnn]
    · rw [hx]
      push_cast
      linarith [sin_pi_div_32_lt]
  · rw [cx_findLaunchAngle]
    have hrad := mid_rad 16
    have hxm_pos : 0 < Real.pi / (2 ^ (16 : ℕ) * 8) := by positivity
    have hpiu := Real.pi_lt_d6
    have hxm_u : Real.pi / (2 ^ (16 : ℕ) * 8) ≤ 0.000006 := by
      rw [show ((2 : ℝ) ^ (16 : ℕ) * 8) = 524288 from by norm_num]
      nlinarith
    have hsin_lt : Real.sin (Real.pi / (2 ^ (16 : ℕ) * 8)) < 0.0981 := by
      have := Real.sin_lt hxm_pos
      linarith
    have hsin_nn : 0 ≤ Real.sin (Real.pi / (2 ^ (16 : ℕ) * 8)) :=
      Real.sin_nonneg_of_nonneg_of_le_pi (le_of_lt hxm_pos) (by linarith)
    have hcos_tiny : 0.9999 ≤ Real.cos (Real.pi / (2 ^ (16 : ℕ) * 8)) := by
      obtain ⟨hl, _⟩ := cos_taylor_bounds (Real.pi / (2 ^ (16 : ℕ) * 8))
        0 0.000006 (le_of_lt hxm_pos) hxm_u (le_refl 0) (by norm_num)
      nlinarith
    have hr := cx_range_at ((0 + 45 / 2 ^ (16 : ℕ)) / 2) 1 (by norm_num)
      (by norm_num) ?_ ?_
    · rw [hr, hrad]
      intro habs
      have h2 := (abs_le.mp habs).2
      have hTpos : (0 : ℝ) < cxTarget := by
        unfold cxTarget
        nlinarith [hc32.1]
      rw [abs_of_pos hTpos] at h2
      unfold cxTarget at h2
      push_cast at h2
      nlinarith [hcos_tiny, hc32.2]
    · rw [hrad]
      push_cast
      linarith [hsin_nn]
    · rw [hrad]
      push_cast
      linarith [hsin_lt]

/-! ### C7 amended: with a strictly monotone simulated-range curve the
solver localizes an achieving angle to within the final bracket width -/

/-- If the simulated range is strictly monotone in the angle, the bisection
bracket always keeps an achieving angle inside it. -/
theorem bisect_contains (p : ShellParams) (T θs : ℝ)
    (hmono : StrictMonoOn (fun θ => (simulateTrajectory θ p).range)
      (Set.Icc 0 45))
    (hθs : θs ∈ Set.Icc (0 : ℝ) 45)
    (hrange : (simulateTrajectory θs p).range = T) :
    ∀ (fuel : ℕ) (low high : ℝ), 0 ≤ low → high ≤ 45 → low ≤ high →
      low ≤ θs → θs ≤ high →
      (bisectLoop p T fuel low high).1 ≤ θs ∧
      θs ≤ (bisectLoop p T fuel low high).2 := by
  intro fuel
  induction fuel with
  | zero =>
    intro low high _ _ _ h1 h2
    exact ⟨h1, h2⟩
  | succ fuel ih =>
    intro low high hl hh hlh h1 h2
    simp only [bisectLoop]
    by_cases hguard : high - low > 0.001
    · rw [if_pos hguard]
      have hml : low ≤ (low + high) / 2 := by linarith
      have hmh : (low + high) / 2 ≤ high := by linarith
      have hmIcc : (low + high) / 2 ∈ Set.Icc (0 : ℝ) 45 :=
        ⟨by linarith, by linarith⟩
      by_cases hcmp : (simulateTrajectory ((low + high) / 2) p).range < T
      · rw [if_pos hcmp]
        have hmidlt : (low + high) / 2 < θs := by
          by_contra hcon
          push_neg at hcon
          have := hmono.monotoneOn hθs hmIcc hcon
          simp only at this
          rw [hrange] at this
          linarith
        exact ih ((low + high) / 2) high (by linarith) hh (by linarith)
          (le_of_lt hmidlt) h2
      · rw [if_neg hcmp]
        have hmidge : θs ≤ (low + high) / 2 := by
          by_contra hcon
          push_neg at hcon
          have := hmono hmIcc hθs hcon
          simp only at this
          rw [hrange] at this
          exact hcmp this
        exact ih low ((low + high) / 2) hl (by linarith) (by linarith) h1 hmidge
    · rw [if_neg hguard]
      exact ⟨h1, h2⟩

/-- C7 (amended): for every shell-parameter record whose simulated range is
strictly increasing in the launch angle over `[0, 45]` degrees and every
target range achievable within the bracket, the solved angle lies in
`[0, 45]` and within `45 / 2^16` degrees (the final bracket width) of an
angle that exactly achieves the target.  (The re-simulated range itself can
still miss the target by more than 0.1 percent, because the discretized
range jumps whenever the step count changes: see the counterexample.) -/
theorem claim_C7 (p : ShellParams) (T : ℝ)
    (hmono : StrictMonoOn (fun θ => (simulateTrajectory θ p).range)
      (Set.Icc 0 45))
    (hach : ∃ θs ∈ Set.Icc (0 : ℝ) 45, (simulateTrajectory θs p).range = T) :
    ∃ θs ∈ Set.Icc (0 : ℝ) 45,
      (simulateTrajectory θs p).range = T ∧
      findLaunchAngle T p ∈ Set.Icc (0 : ℝ) 45 ∧
      |findLaunchAngle T p - θs| ≤ 45 / 2 ^ 16 := by
  obtain ⟨θs, hθs, hrange⟩ := hach
  obtain ⟨l, h, heq, hwidth, h0, h45, hlh, _, _⟩ :=
    bisectLoop_run p T 16 0 0 45 (by norm_num) le_rfl (by norm_num)
      (by norm_num) (by omega)
  have hfla : findLaunchAngle T p = (l + h) / 2 := by
    unfold findLaunchAngle
    rw [bisectLoop_stable p T 16 0 0 45 (by omega) (by norm_num) 17 (by omega),
      heq]
  have hcont := bisect_contains p T θs hmono hθs hrange 16 0 45 le_rfl
    (by norm_num) (by norm_num) hθs.1 hθs.2
  rw [heq] at hcont
  simp only at hcont
  refine ⟨θs, hθs, hrange, ?_, ?_⟩
  · rw [hfla]
    exact ⟨by linarith, by linarith⟩
  · rw [hfla, abs_le]
    constructor
    · linarith [hcont.1, hcont.2, hwidth]
    · linarith [hcont.1, hcont.2, hwidth]

/-! ### A concrete shell satisfying the hypotheses of the amended C7 -/

theorem sim_one_step_range (θ : ℝ) (p : ShellParams) (hk : simK p = 0)
    (hneg : 0.02 * (p.muzzleVelocity * Real.sin (θ * Real.pi / 180)) -
      PHYSICS.g * (0.02 : ℝ) ^ 2 / 2 < 0) :
    (simulateTrajectory θ p).range =
      0.02 * (p.muzzleVelocity * Real.cos (θ * Real.pi / 180)) := by
  have hy0 : (initState θ p).y = 0 := rfl
  have hvyproj : (initState θ p).vy =
      p.muzzleVelocity * Real.sin (θ * Real.pi / 180) := rfl
  have hstop : ¬((stepN 0 1 (initState θ p)).y ≥ 0 ∧
      (0 : ℝ) + (1 : ℕ) * 0.02 < 120) := by
    rw [stepN_zero_drag]
    dsimp only
    rw [hy0, hvyproj]
    intro hcon
    have := hcon.1
    push_cast at this
    nlinarith
  have hrun : ∀ m : ℕ, m < 1 →
      (stepN 0 m (initState θ p)).y ≥ 0 ∧ (0 : ℝ) + (m : ℕ) * 0.02 < 120 := by
    intro m hm
    have hm0 : m = 0 := by omega
    subst hm0
    rw [stepN_zero]
    constructor
    · rw [hy0]
    · push_cast
      norm_num
  have hexit := simLoop_exit 0 1 (initState θ p) 0 6001 (by omega) hrun hstop
  show (simLoop (simK p) 6001 (initState θ p) 0).1.x = _
  rw [hk, hexit]
  dsimp only
  rw [stepN_zero_drag]
  dsimp only
  have hx0 : (initState θ p).x = 0 := rfl
  have hvx : (initState θ p).vx =
      p.muzzleVelocity * Real.cos (θ * Real.pi / 180) := rfl
  rw [hx0, hvx]
  push_cast
  ring

/-- Witness shell for the amended C7: negative muzzle velocity and zero
drag, so the projectile drops below launch altitude after the very first
step and the simulated range is `-2 cos(angle)`, a strictly increasing
function of the angle on `[0, 45]`. -/
noncomputable def wParams : ShellParams :=
  { muzzleVelocity := -100, caliber := 100, mass := 1, dragCoefficient := 0 }

theorem wParams_drag_zero : simK wParams = 0 := by
  show getCombinedDrag (0 : ℝ) ((100 : ℝ) / 1000) 1 = 0
  unfold getCombinedDrag
  norm_num

theorem w_range_eq (θ : ℝ) (h1 : 0 ≤ θ) (h2 : θ ≤ 45) :
    (simulateTrajectory θ wParams).range =
      -2 * Real.cos (θ * Real.pi / 180) := by
  have hx0 : 0 ≤ θ * Real.pi / 180 :=
    div_nonneg (mul_nonneg h1 (le_of_lt Real.pi_pos)) (by norm_num)
  have hxpi : θ * Real.pi / 180 ≤ Real.pi := by
    nlinarith [Real.pi_pos]
  have hsin : 0 ≤ Real.sin (θ * Real.pi / 180) :=
    Real.sin_nonneg_of_nonneg_of_le_pi hx0 hxpi
  have hV : wParams.muzzleVelocity = -100 := rfl
  have hres := sim_one_step_range θ wParams wParams_drag_zero ?_
  · rw [hres, hV]
    ring
  · rw [hV]
    have hg : PHYSICS.g = 9.81 := rfl
    rw [hg]
    nlinarith

theorem w_mono :
    StrictMonoOn (fun θ => (simulateTrajectory θ wParams).range)
      (Set.Icc 0 45) := by
  intro a ha b hb hab
  simp only
  rw [w_range_eq a ha.1 ha.2, w_range_eq b hb.1 hb.2]
  have hcos : Real.cos (b * Real.pi / 180) < Real.cos (a * Real.pi / 180) := by
    apply Real.cos_lt_cos_of_nonneg_of_le_pi
    · exact div_nonneg (mul_nonneg ha.1 (le_of_lt Real.pi_pos)) (by norm_num)
    · nlinarith [Real.pi_pos, hb.2]
    · have hpi := Real.pi_pos
      have : (b - a) * Real.pi > 0 := mul_pos (by linarith) hpi
      nlinarith
  linarith

theorem w_ach : ∃ θs ∈ Set.Icc (0 : ℝ) 45,
    (simulateTrajectory θs wParams).range = -Real.sqrt 3 := by
  refine ⟨30, ⟨by norm_num, by norm_num⟩, ?_⟩
  rw [w_range_eq 30 (by norm_num) (by norm_num)]
  rw [show (30 : ℝ) * Real.pi / 180 = Real.pi / 6 from by ring,
    Real.cos_pi_div_six]
  ring

/-- C7 witness: the amended theorem applied to the witness shell. -/
theorem claim_C7_witness :
    ∃ θs ∈ Set.Icc (0 : ℝ) 45,
      (simulateTrajectory θs wParams).range = -Real.sqrt 3 ∧
      findLaunchAngle (-Real.sqrt 3) wParams ∈ Set.Icc (0 : ℝ) 45 ∧
      |findLaunchAngle (-Real.sqrt 3) wParams - θs| ≤ 45 / 2 ^ 16 :=
  claim_C7 wParams (-Real.sqrt 3) w_mono w_ach

end Wows
